import Mathlib

/-!
Formal model of the ASCII video player (`ascii_video_player.py`):
the frame-to-glyph conversion pipeline, the layout geometry computed at
session construction, and the playback state machine of `play`.

Conventions of the shallow embedding:
* Python machine floats are modelled by exact arithmetic (`ℚ`, and `ℝ`
  only inside justification lemmas); `int(x)` is truncation toward zero
  (`pyInt`).
* Byte images are matrices of `ℕ` values (intended range 0..255).
* External collaborators (OpenCV, pygame) enter only through their
  documented input/output contracts; see the doc comment of each
  definition that models one.
-/

/-- The standard character set, dark to bright: the Python string
`ASCII_CHARS = " .':!*oe&#%@"` (line 13), as a list of its characters. -/
def ASCII_CHARS : List Char :=
  [' ', '.', '\'', ':', '!', '*', 'o', 'e', '&', '#', '%', '@']

/-- The extended character set (line 15): the 70 characters of the Python
string `ASCII_CHARS_EXTENDED`.  The few characters that are awkward as
Lean character literals (backtick 96, double quote 34, backslash 92,
braces 123/125) are written via `Char.ofNat` with their ASCII code. -/
def ASCII_CHARS_EXTENDED : List Char :=
  [' ', '.', '\'', Char.ofNat 96, '^', Char.ofNat 34, ',', ':', ';', 'I',
   'l', '!', 'i', '>', '<', '~', '+', '_', '-', '?',
   ']', '[', Char.ofNat 125, Char.ofNat 123, '1', ')', '(', '|', Char.ofNat 92, '/',
   't', 'f', 'j', 'r', 'x', 'n', 'u', 'v', 'c', 'z',
   'X', 'Y', 'U', 'J', 'C', 'L', 'Q', '0', 'O', 'Z',
   'm', 'w', 'q', 'p', 'd', 'b', 'k', 'h', 'a', 'o',
   '*', '#', 'M', 'W', '&', '8', '%', 'B', '@', '$']

/-- Python `int(·)` applied to an exact value: truncation toward zero. -/
def pyInt (q : ℚ) : ℤ :=
  if 0 ≤ q then ⌊q⌋ else -⌊-q⌋

/-- Luminance-to-character-index mapping of `frame_to_ascii`
(lines 121-123):

    normalized = pixel_value / 255.0
    char_index = int(normalized ** 0.5 * (len(self.chars) - 1))
    char_index = min(max(char_index, 0), len(self.chars) - 1)

For `v ≥ 0` and `L ≥ 1` the value `int(sqrt(v/255) * (L-1))` equals
`Nat.sqrt (v * (L-1)^2 / 255)` (truncation of a nonnegative value is the
floor, and `⌊√(v/255)·(L−1)⌋ = ⌊√(v·(L−1)²/255)⌋ = Nat.sqrt ⌊v·(L−1)²/255⌋`);
this identity is proved below as `char_index_eq_floor_sqrt`.  `L` is the
length of the active character set. -/
def char_index (L v : ℕ) : ℕ :=
  min (max (Nat.sqrt (v * (L - 1) ^ 2 / 255)) 0) (L - 1)

/-- `⌊√q⌋ = Nat.sqrt ⌊q⌋` for a nonnegative rational `q`: the floor of the
real square root is computed by the natural-number square root of the
floor. -/
lemma floor_sqrt_rat (q : ℚ) (hq : 0 ≤ q) :
    ⌊Real.sqrt q⌋ = (Nat.sqrt ⌊q⌋₊ : ℤ) := by
  have h0 : (0 : ℝ) ≤ (q : ℝ) := by exact_mod_cast hq
  have hfl : ((⌊q⌋₊ : ℝ)) ≤ (q : ℝ) := by
    exact_mod_cast Nat.floor_le hq
  have hlow : ((Nat.sqrt ⌊q⌋₊ : ℝ)) ≤ Real.sqrt q := by
    calc ((Nat.sqrt ⌊q⌋₊ : ℝ)) ≤ Real.sqrt (⌊q⌋₊ : ℝ) := Real.nat_sqrt_le_real_sqrt
      _ ≤ Real.sqrt q := Real.sqrt_le_sqrt hfl
  have hhigh : Real.sqrt q < (Nat.sqrt ⌊q⌋₊ : ℝ) + 1 := by
    have hq1 : (q : ℝ) < ((⌊q⌋₊ : ℝ) + 1) := by
      exact_mod_cast Nat.lt_floor_add_one q
    have h2 : ((⌊q⌋₊ : ℕ)) < (Nat.sqrt ⌊q⌋₊ + 1) ^ 2 := by
      have := Nat.lt_succ_sqrt' ⌊q⌋₊
      simpa [Nat.succ_eq_add_one] using this
    have h3 : (q : ℝ) < ((Nat.sqrt ⌊q⌋₊ + 1 : ℕ) : ℝ) ^ 2 := by
      have h2' : ((⌊q⌋₊ + 1 : ℕ) : ℝ) ≤ (((Nat.sqrt ⌊q⌋₊ + 1 : ℕ) : ℝ)) ^ 2 := by
        have : (⌊q⌋₊ + 1 : ℕ) ≤ (Nat.sqrt ⌊q⌋₊ + 1) ^ 2 := h2
        exact_mod_cast this
      have : (q : ℝ) < ((⌊q⌋₊ + 1 : ℕ) : ℝ) := by push_cast; linarith
      linarith
    have h4 : Real.sqrt q < ((Nat.sqrt ⌊q⌋₊ + 1 : ℕ) : ℝ) := by
      have hnn : (0 : ℝ) ≤ ((Nat.sqrt ⌊q⌋₊ + 1 : ℕ) : ℝ) := by positivity
      have := Real.sqrt_lt_sqrt h0 h3
      rwa [Real.sqrt_sq hnn] at this
    calc Real.sqrt q < ((Nat.sqrt ⌊q⌋₊ + 1 : ℕ) : ℝ) := h4
      _ = (Nat.sqrt ⌊q⌋₊ : ℝ) + 1 := by push_cast; ring
  have : ⌊Real.sqrt q⌋ = (Nat.sqrt ⌊q⌋₊ : ℤ) := by
    rw [Int.floor_eq_iff]
    constructor
    · exact_mod_cast hlow
    · exact_mod_cast hhigh
  exact this

/-- Justification of the `Nat.sqrt` encoding in `char_index`: for any
luminance `v` and set size `L`, the unclamped index computed by the source,
`int(sqrt(v/255) * (L-1))`, equals `Nat.sqrt (v * (L-1)^2 / 255)`. -/
lemma char_index_eq_floor_sqrt (L v : ℕ) :
    ⌊Real.sqrt ((v : ℝ) / 255) * ((L - 1 : ℕ) : ℝ)⌋ =
      (Nat.sqrt (v * (L - 1) ^ 2 / 255) : ℤ) := by
  have hq : (0 : ℚ) ≤ (v * (L - 1) ^ 2 : ℕ) / 255 := by positivity
  have key : Real.sqrt ((v : ℝ) / 255) * ((L - 1 : ℕ) : ℝ) =
      Real.sqrt (((v * (L - 1) ^ 2 : ℕ) : ℝ) / 255) := by
    rw [show (((v * (L - 1) ^ 2 : ℕ) : ℝ)) = (v : ℝ) * ((L - 1 : ℕ) : ℝ) ^ 2 by
      push_cast; ring]
    nth_rewrite 1 [show ((L - 1 : ℕ) : ℝ) = Real.sqrt (((L - 1 : ℕ) : ℝ) ^ 2) from
      (Real.sqrt_sq (by positivity)).symm]
    rw [← Real.sqrt_mul (by positivity)]
    congr 1
    ring
  rw [key]
  have hcast : (((v * (L - 1) ^ 2 : ℕ) : ℝ) / 255) =
      (((v * (L - 1) ^ 2 : ℕ) / 255 : ℚ) : ℝ) := by push_cast; ring
  rw [hcast, floor_sqrt_rat _ hq]
  congr 1
  have h255 : ((v * (L - 1) ^ 2 : ℕ) : ℚ) / 255 =
      ((v * (L - 1) ^ 2 : ℕ) : ℚ) / ((255 : ℕ) : ℚ) := by norm_num
  rw [h255, Nat.floor_div_nat, Nat.floor_natCast]

/-- C3: The luminance-to-character-index mapping is monotone
non-decreasing: for post-equalization luminance values `v1 < v2`,
`char_index L v1 ≤ char_index L v2` (in particular for the two character
sets of the program and byte values in `[0, 255]`). -/
theorem char_index_mono (L v1 v2 : ℕ) (h : v1 < v2) :
    char_index L v1 ≤ char_index L v2 := by
  unfold char_index
  have hsq : Nat.sqrt (v1 * (L - 1) ^ 2 / 255) ≤ Nat.sqrt (v2 * (L - 1) ^ 2 / 255) := by
    apply Nat.sqrt_le_sqrt
    apply Nat.div_le_div_right
    exact Nat.mul_le_mul_right _ (Nat.le_of_lt h)
  exact min_le_min (max_le_max hsq le_rfl) le_rfl

/-- Witness for C3 at concrete luminances 100 < 200 with the standard set. -/
theorem char_index_mono_witness :
    (100 : ℕ) < 200 ∧
      char_index ASCII_CHARS.length 100 ≤ char_index ASCII_CHARS.length 200 :=
  ⟨by decide, char_index_mono ASCII_CHARS.length 100 200 (by decide)⟩

/-- C4: for every input luminance value, the computed character index lies
in `[0, |CharacterSet| - 1]` — strictly below the set's length — for both
the standard and the extended character set, so indexing never goes out of
range. -/
theorem char_index_range (v : ℕ) :
    0 ≤ char_index ASCII_CHARS.length v ∧
      char_index ASCII_CHARS.length v ≤ ASCII_CHARS.length - 1 ∧
      char_index ASCII_CHARS.length v < ASCII_CHARS.length ∧
      0 ≤ char_index ASCII_CHARS_EXTENDED.length v ∧
      char_index ASCII_CHARS_EXTENDED.length v ≤ ASCII_CHARS_EXTENDED.length - 1 ∧
      char_index ASCII_CHARS_EXTENDED.length v < ASCII_CHARS_EXTENDED.length := by
  refine ⟨Nat.zero_le _, min_le_right _ _, ?_, Nat.zero_le _, min_le_right _ _, ?_⟩
  · exact lt_of_le_of_lt (min_le_right _ _) (by decide)
  · exact lt_of_le_of_lt (min_le_right _ _) (by decide)

/-- The `frame_delay` variable computed at the top of `play` (line 191):
`frame_delay = int(1000 / self.fps) if self.fps > 0 else 30`.  This is the
only place its value is computed — the variable is never read afterwards:
the loop paces itself solely through the rendering provider's tick call at
line 265. -/
def frame_delay (fps : ℚ) : ℤ :=
  if fps > 0 then pyInt (1000 / fps) else 30

/-- Modelled from the spec: the rendering provider's pacing call
`paceTick(targetFps)` (spec section 6), realized by `self.clock.tick(self.fps)`
at line 265 — the call that actually paces the loop.  Per the provider's
documented contract, a tick at a positive frame rate blocks so that cycles
approximate a target interval of `1000/fps` milliseconds; a tick at a zero
or negative frame rate performs no delay at all (target interval 0). -/
def paceTick_interval (fps : ℚ) : ℚ :=
  if 0 < fps then 1000 / fps else 0

/-- C2 counterexample: in a session with `fps = 0`, the per-cycle interval
actually used to pace playback (the line-265 tick) is 0 ms — no delay —
while the fixed 30 ms lands only in the `frame_delay` variable of
line 191, which nothing ever reads: the claimed 30 ms fallback interval
never paces playback. -/
theorem thirty_ms_fallback_never_paces :
    paceTick_interval 0 = 0 ∧ frame_delay 0 = 30 ∧ paceTick_interval 0 ≠ 30 := by
  refine ⟨?_, ?_, ?_⟩ <;> norm_num [paceTick_interval, frame_delay]

/-- C2 (amended): for every session, the per-cycle target frame interval
used to pace playback (the provider tick of line 265) equals `1000/fps`
milliseconds when `fps > 0`; when `fps ≤ 0` the tick performs no delay
(interval 0), and the fixed 30 ms fallback exists only as the value of the
unused `frame_delay` variable of line 191, whose arithmetic
(`⌊1000/fps⌋` ms for `fps > 0`, else 30) is proved alongside. -/
theorem playback_pacing_spec (fps : ℚ) :
    (0 < fps →
      paceTick_interval fps = 1000 / fps ∧ frame_delay fps = ⌊(1000 : ℚ) / fps⌋) ∧
      (fps ≤ 0 → paceTick_interval fps = 0 ∧ frame_delay fps = 30) := by
  constructor
  · intro h
    refine ⟨by unfold paceTick_interval; rw [if_pos h], ?_⟩
    unfold frame_delay pyInt
    rw [if_pos h, if_pos (by positivity)]
  · intro h
    refine ⟨by unfold paceTick_interval; rw [if_neg (not_lt.mpr h)], ?_⟩
    unfold frame_delay
    rw [if_neg (not_lt.mpr h)]

/-- Witness for C2 (amended) at `fps = 24` (paced at `1000/24` ms, dead
variable `⌊1000/24⌋ = 41`) and at `fps = 0` (unpaced, dead variable 30). -/
theorem playback_pacing_spec_witness :
    ((0 : ℚ) < 24 ∧
        paceTick_interval 24 = 1000 / 24 ∧ frame_delay 24 = ⌊(1000 : ℚ) / 24⌋) ∧
      ((0 : ℚ) ≤ 0 ∧ paceTick_interval 0 = 0 ∧ frame_delay 0 = 30) :=
  ⟨⟨by norm_num, (playback_pacing_spec 24).1 (by norm_num)⟩,
   ⟨le_refl 0, (playback_pacing_spec 0).2 (le_refl 0)⟩⟩

/-- Grayscale value used by `draw_ascii_frame` in no-color mode
(line 150): `gray_val = int((self.chars.index(char) / len(self.chars)) * 255)`.
`List.indexOf` is the first-occurrence position, as Python `str.index`. -/
def gray_val (chars : List Char) (c : Char) : ℤ :=
  pyInt (((chars.indexOf c : ℕ) : ℚ) / chars.length * 255)

/-- Color assigned to a cell in no-color mode (lines 150-151):
`color = (gray_val, gray_val, gray_val)`. -/
def cell_color (chars : List Char) (c : Char) : ℤ × ℤ × ℤ :=
  (gray_val chars c, gray_val chars c, gray_val chars c)

/-- C9: in no-color mode the displayed color of every cell is the
grayscale triple `(g, g, g)` with
`g = ⌊charIndex / |CharacterSet| * 255⌋`, where `charIndex` is the glyph's
(first-occurrence) position in the active character set. -/
theorem cell_color_grayscale (chars : List Char) (c : Char) (hne : chars ≠ []) :
    cell_color chars c = (gray_val chars c, gray_val chars c, gray_val chars c) ∧
      gray_val chars c = ⌊((chars.indexOf c : ℕ) : ℚ) / chars.length * 255⌋ := by
  refine ⟨rfl, ?_⟩
  unfold gray_val pyInt
  rw [if_pos (by positivity)]

/-- Witness for C9: the glyph at index 6 of the standard set (letter o)
gets gray value `⌊6/12·255⌋ = 127`. -/
theorem cell_color_grayscale_witness :
    ASCII_CHARS ≠ [] ∧
      (cell_color ASCII_CHARS 'o' =
          (gray_val ASCII_CHARS 'o', gray_val ASCII_CHARS 'o', gray_val ASCII_CHARS 'o') ∧
        gray_val ASCII_CHARS 'o' =
          ⌊((ASCII_CHARS.indexOf 'o' : ℕ) : ℚ) / ASCII_CHARS.length * 255⌋) :=
  ⟨by decide, cell_color_grayscale ASCII_CHARS 'o' (by decide)⟩

/-- C10 counterexample: the claim asserts the extended character set has
duplicate glyphs that would break the glyph-to-index round-trip; in fact
its 70 glyphs are pairwise distinct (`Nodup`), and the round-trip holds
there too, e.g. at index 59 (letter o). -/
theorem extended_set_has_no_duplicates :
    ASCII_CHARS_EXTENDED.Nodup ∧
      ASCII_CHARS_EXTENDED.indexOf (ASCII_CHARS_EXTENDED.getD 59 ' ') = 59 := by
  decide

/-- In a duplicate-free character set, looking the glyph at index `i` back
up by first occurrence returns exactly `i`. -/
lemma indexOf_getD_of_nodup (l : List Char) (hnd : l.Nodup) (i : ℕ)
    (hi : i < l.length) : l.indexOf (l.getD i ' ') = i := by
  rw [List.getD_eq_getElem _ _ hi]
  exact List.indexOf_getElem hnd i hi

/-- C10 (amended): both character sets have pairwise-distinct glyphs, so
looking a glyph back up by first occurrence returns exactly its index, and
in no-color mode the grayscale value is derived from exactly the index the
luminance mapping produced — for the standard AND the extended set (the
extended set has no duplicate glyphs that could break this). -/
theorem charset_index_roundtrip :
    ASCII_CHARS.Nodup ∧
      (∀ i < ASCII_CHARS.length,
        ASCII_CHARS.indexOf (ASCII_CHARS.getD i ' ') = i) ∧
      (∀ v : ℕ,
        gray_val ASCII_CHARS (ASCII_CHARS.getD (char_index ASCII_CHARS.length v) ' ') =
          pyInt ((char_index ASCII_CHARS.length v : ℚ) / ASCII_CHARS.length * 255)) ∧
      ASCII_CHARS_EXTENDED.Nodup ∧
      (∀ i < ASCII_CHARS_EXTENDED.length,
        ASCII_CHARS_EXTENDED.indexOf (ASCII_CHARS_EXTENDED.getD i ' ') = i) ∧
      (∀ v : ℕ,
        gray_val ASCII_CHARS_EXTENDED
            (ASCII_CHARS_EXTENDED.getD (char_index ASCII_CHARS_EXTENDED.length v) ' ') =
          pyInt ((char_index ASCII_CHARS_EXTENDED.length v : ℚ) /
            ASCII_CHARS_EXTENDED.length * 255)) := by
  have hnd1 : ASCII_CHARS.Nodup := by decide
  have hnd2 : ASCII_CHARS_EXTENDED.Nodup := by decide
  have hlt1 : ∀ v : ℕ, char_index ASCII_CHARS.length v < ASCII_CHARS.length :=
    fun v => lt_of_le_of_lt (min_le_right _ _) (by decide)
  have hlt2 : ∀ v : ℕ,
      char_index ASCII_CHARS_EXTENDED.length v < ASCII_CHARS_EXTENDED.length :=
    fun v => lt_of_le_of_lt (min_le_right _ _) (by decide)
  refine ⟨hnd1, fun i hi => indexOf_getD_of_nodup _ hnd1 i hi, fun v => ?_,
    hnd2, fun i hi => indexOf_getD_of_nodup _ hnd2 i hi, fun v => ?_⟩
  · unfold gray_val
    rw [indexOf_getD_of_nodup _ hnd1 _ (hlt1 v)]
  · unfold gray_val
    rw [indexOf_getD_of_nodup _ hnd2 _ (hlt2 v)]

/-- Witness for C10 (amended) at index 5 of the standard set and
luminance 255 of the extended set. -/
theorem charset_index_roundtrip_witness :
    ASCII_CHARS.indexOf (ASCII_CHARS.getD 5 ' ') = 5 ∧
      gray_val ASCII_CHARS_EXTENDED
          (ASCII_CHARS_EXTENDED.getD (char_index ASCII_CHARS_EXTENDED.length 255) ' ') =
        pyInt ((char_index ASCII_CHARS_EXTENDED.length 255 : ℚ) /
          ASCII_CHARS_EXTENDED.length * 255) :=
  ⟨charset_index_roundtrip.2.1 5 (by decide),
   charset_index_roundtrip.2.2.2.2.2 255⟩

/-- OpenCV `cvRound`: round to nearest, ties to even (used by
`saturate_cast` when building the equalization lookup table). -/
def cvRound (q : ℚ) : ℤ :=
  if q - ⌊q⌋ < 1 / 2 then ⌊q⌋
  else if 1 / 2 < q - ⌊q⌋ then ⌊q⌋ + 1
  else if ⌊q⌋ % 2 = 0 then ⌊q⌋ else ⌊q⌋ + 1

/-- OpenCV `saturate_cast<uchar>`: clamp an integer into a byte. -/
def saturate_uchar (z : ℤ) : ℕ :=
  (min (max z 0) 255).toNat

/-- Modelled from the spec: the histogram-equalization collaborator
(`cv2.equalizeHist`, an external library the repository only calls at
line 108).  The spec fixes its boundary contract — a global,
histogram-driven lookup table over the luminance channel, with a flat
histogram collapsing to its minimum (spec section 4.2 step 3 and
section 8) — and this lookup table follows OpenCV's documented
construction: find the lowest occurring value `i0`; a constant image is
returned unchanged (mapped to `i0`); otherwise `lut v` is the cumulative
histogram above `i0` rescaled by `255 / (total - hist i0)`, rounded and
clamped to a byte, with `lut i0 = 0`. -/
def equalizeLut (pixels : List ℕ) : ℕ → ℕ :=
  match (List.range 256).find? (fun v => pixels.count v != 0) with
  | none => fun v => v
  | some i0 =>
    if pixels.count i0 = pixels.length then fun _ => i0
    else fun v =>
      if v ≤ i0 then 0
      else saturate_uchar (cvRound
        ((((List.range' (i0 + 1) (v - i0)).map (fun i => pixels.count i)).sum : ℚ) * 255 /
          ((pixels.length : ℚ) - (pixels.count i0 : ℕ))))

/-- `cv2.equalizeHist` applied to a grayscale matrix: every pixel goes
through the lookup table computed from the full-image histogram. -/
def equalizeHist (img : List (List ℕ)) : List (List ℕ) :=
  img.map (fun row => row.map (equalizeLut img.flatten))

/-- Output of `cv2.resize` to `(ascii_width, ascii_height)` followed by
`cv2.cvtColor(..., COLOR_BGR2GRAY)` (lines 102-105): a grayscale matrix of
exactly `h` rows and `w` columns.  The sampling function `f` abstracts the
resampling kernel and the luminance formula, which the spec leaves as the
collaborator's implementation choice; the fixed output shape is the resize
contract. -/
def resizedGray (w h : ℕ) (f : ℕ → ℕ → ℕ) : List (List ℕ) :=
  (List.range h).map (fun i => (List.range w).map (fun j => f i j))

/-- `frame_to_ascii` (lines 101-127) as a glyph grid: resize the frame to
the session's grid shape, equalize the luminance histogram, then map every
byte through `char_index` into the active character set.  The Python
function flattens the grid into a newline-separated string; the grid is
kept two-dimensional here, one list per text row. -/
def frame_to_ascii (chars : List Char) (w h : ℕ) (f : ℕ → ℕ → ℕ) : List (List Char) :=
  (equalizeHist (resizedGray w h f)).map
    (fun row => row.map (fun v => chars.getD (char_index chars.length v) ' '))

/-- C7: for every input frame, the glyph grid has exactly `h` rows of
exactly `w` cells each — the dimensions fixed by the session geometry —
independent of the frame's pixel content `f`. -/
theorem frame_to_ascii_dims (chars : List Char) (w h : ℕ) (f : ℕ → ℕ → ℕ) :
    (frame_to_ascii chars w h f).length = h ∧
      ∀ row ∈ frame_to_ascii chars w h f, row.length = w := by
  constructor
  · simp [frame_to_ascii, equalizeHist, resizedGray]
  · intro row hrow
    simp only [frame_to_ascii, equalizeHist, resizedGray, List.map_map, List.mem_map,
      List.mem_range] at hrow
    obtain ⟨i, _, rfl⟩ := hrow
    simp

/-- Witness for C7: a 3×2 grid from a concrete frame has 2 rows, and its
first row has 3 cells. -/
theorem frame_to_ascii_dims_witness :
    (frame_to_ascii ASCII_CHARS 3 2 (fun _ _ => 0)).length = 2 ∧
      ((frame_to_ascii ASCII_CHARS 3 2 (fun _ _ => 0)).getD 0 []).length = 3 :=
  ⟨(frame_to_ascii_dims ASCII_CHARS 3 2 (fun _ _ => 0)).1,
   (frame_to_ascii_dims ASCII_CHARS 3 2 (fun _ _ => 0)).2 _ (by decide)⟩

/-- The equalization lookup table maps 0 to 0 on an all-zero pixel list:
the histogram is concentrated at the minimum 0, so the image is constant
and collapses to that minimum. -/
lemma equalizeLut_all_zero (pixels : List ℕ) (hall : ∀ x ∈ pixels, x = 0) :
    equalizeLut pixels 0 = 0 := by
  by_cases hnil : pixels = []
  · subst hnil; decide
  · have hcnt : pixels.count 0 = pixels.length :=
      List.count_eq_length.mpr (fun b hb => (hall b hb).symm)
    have hlen : pixels.length ≠ 0 := fun h => hnil (List.length_eq_zero.mp h)
    have hp0 : ((fun v => pixels.count v != 0) 0) = true := by
      simp only [hcnt, bne_iff_ne, ne_eq]
      exact hlen
    have hfind : (List.range 256).find? (fun v => pixels.count v != 0) = some 0 := by
      rw [show (256 : ℕ) = 255 + 1 from rfl, List.range_succ_eq_map]
      exact List.find?_cons_of_pos _ hp0
    unfold equalizeLut
    rw [hfind]
    simp [hcnt]

/-- C8: converting a uniform all-zero frame produces a grid in which every
cell is `CharacterSet[0]` (the darkest glyph): equalization leaves the
constant-zero luminance channel at 0, and the index mapping sends 0 to
index 0. -/
theorem frame_to_ascii_uniform_zero (chars : List Char) (w h : ℕ) :
    ∀ row ∈ frame_to_ascii chars w h (fun _ _ => 0),
      ∀ c ∈ row, c = chars.getD 0 ' ' := by
  intro row hrow c hc
  have hall : ∀ x ∈ (resizedGray w h (fun _ _ => 0)).flatten, x = 0 := by
    intro x hx
    rw [List.mem_flatten] at hx
    obtain ⟨s, hs, hxs⟩ := hx
    simp only [resizedGray, List.mem_map, List.mem_range] at hs
    obtain ⟨i, _, rfl⟩ := hs
    simp only [List.mem_map, List.mem_range] at hxs
    obtain ⟨j, _, rfl⟩ := hxs
    rfl
  obtain ⟨r1, hr1, rfl⟩ := List.mem_map.mp hrow
  obtain ⟨r0, hr0, rfl⟩ := List.mem_map.mp hr1
  obtain ⟨b, hb, rfl⟩ := List.mem_map.mp hc
  obtain ⟨a, ha, rfl⟩ := List.mem_map.mp hb
  have ha0 : a = 0 := hall a (List.mem_flatten.mpr ⟨r0, hr0, ha⟩)
  subst ha0
  rw [equalizeLut_all_zero _ hall]
  simp [char_index]

/-- Witness for C8: the top-left cell of a 3×2 all-zero frame's grid is
the darkest glyph (the space character) of the standard set. -/
theorem frame_to_ascii_uniform_zero_witness :
    ((frame_to_ascii ASCII_CHARS 3 2 (fun _ _ => 0)).getD 0 []).getD 0 'x' =
      ASCII_CHARS.getD 0 ' ' :=
  frame_to_ascii_uniform_zero ASCII_CHARS 3 2
    ((frame_to_ascii ASCII_CHARS 3 2 (fun _ _ => 0)).getD 0 []) (by decide)
    (((frame_to_ascii ASCII_CHARS 3 2 (fun _ _ => 0)).getD 0 []).getD 0 'x') (by decide)

/-- Input events polled once per cycle by the play loop (lines 209-224):
the window-close event (`pygame.QUIT`) and the handled key presses;
`keyOther` stands for any other key, which the loop ignores. -/
inductive Event
  | windowClose
  | keyEscape
  | keyQ
  | keySpace
  | keyR
  | keyP
  | keyOther
deriving DecidableEq

/-- Mutable session state of `play`: `running` (false is the terminal
Stopped state), `paused`, the preview flag, the video source's read cursor
(`CAP_PROP_POS_FRAMES`), and how many times `cleanup` (line 279:
`cap.release()` + `pygame.quit()`) has run. -/
structure PlayerState where
  running : Bool
  paused : Bool
  show_preview : Bool
  pos : ℕ
  cleanups : ℕ
deriving DecidableEq

/-- Effect of one polled event (lines 210-224): window close and the
escape/q keys clear `running`; space toggles `paused`; r seeks the source
to frame 0 and forces resume; p toggles the preview flag. -/
def handleEvent (st : PlayerState) (e : Event) : PlayerState :=
  match e with
  | .windowClose => { st with running := false }
  | .keyEscape => { st with running := false }
  | .keyQ => { st with running := false }
  | .keySpace => { st with paused := !st.paused }
  | .keyR => { st with pos := 0, paused := false }
  | .keyP => { st with show_preview := !st.show_preview }
  | .keyOther => st

/-- One iteration of the while-loop body (lines 208-275): poll the cycle's
events, then — exactly as the source, regardless of whether an event just
cleared `running` — if not paused, read a frame.  A read with the cursor at
or past `frame_count` is the end-of-stream signal (`ret` false, cursor not
advanced): the cursor is reset to 0 and the iteration ends (`continue`,
line 233).  A successful read returns the frame at the cursor and advances
it; the returned option is the frame rendered this cycle (`none` when
paused or at end-of-stream). -/
def loopBody (frame_count : ℕ) (events : List Event) (st : PlayerState) :
    PlayerState × Option ℕ :=
  let st1 := events.foldl handleEvent st
  if st1.paused then (st1, none)
  else if st1.pos < frame_count then ({ st1 with pos := st1.pos + 1 }, some st1.pos)
  else ({ st1 with pos := 0 }, none)

/-- The `while self.running` loop of `play` (line 207), driven by a finite
schedule of per-cycle event batches: iterate while `running` holds,
consuming one batch per cycle; stop when `running` is cleared or the
schedule (the modelled prefix of the event stream) is exhausted. -/
def playLoop (frame_count : ℕ) : List (List Event) → PlayerState → PlayerState
  | [], st => st
  | evs :: rest, st =>
    if st.running then playLoop frame_count rest (loopBody frame_count evs st).1
    else st

/-- `play` (lines 188-277): set `running := True` (line 190), run the
loop, and — exactly as line 277, which runs once the while-loop exits —
run `cleanup` exactly once, modelled by incrementing `cleanups`.  If the
finite schedule ends with the loop still running, the session has not
ended and cleanup has not yet happened. -/
def play (frame_count : ℕ) (evss : List (List Event)) (st0 : PlayerState) : PlayerState :=
  let st := playLoop frame_count evss { st0 with running := true }
  if st.running then st else { st with cleanups := st.cleanups + 1 }

/-- C5: when the video source signals end-of-stream (`pos ≥ frame_count`)
while the state is Playing (running, not paused), the loop iteration
resets the cursor to 0, stays running (no transition to Stopped), renders
nothing that cycle, and the next read returns frame 0. -/
theorem end_of_stream_loops (fc : ℕ) (st : PlayerState)
    (hrun : st.running = true) (hpause : st.paused = false)
    (heos : fc ≤ st.pos) (hfc : 0 < fc) :
    (loopBody fc [] st).1.running = true ∧
      (loopBody fc [] st).1.pos = 0 ∧
      (loopBody fc [] st).2 = none ∧
      (loopBody fc [] (loopBody fc [] st).1).2 = some 0 := by
  have h1 : loopBody fc [] st = ({ st with pos := 0 }, none) := by
    unfold loopBody
    simp [hpause, Nat.not_lt.mpr heos]
  rw [h1]
  refine ⟨hrun, rfl, rfl, ?_⟩
  unfold loopBody
  simp [hpause, hfc]

/-- Witness for C5: a playing session with cursor 3 in a 3-frame video
loops back to frame 0 and reads frame 0 next cycle. -/
theorem end_of_stream_loops_witness :
    (loopBody 3 [] ⟨true, false, true, 3, 0⟩).1.running = true ∧
      (loopBody 3 [] ⟨true, false, true, 3, 0⟩).1.pos = 0 ∧
      (loopBody 3 [] ⟨true, false, true, 3, 0⟩).2 = none ∧
      (loopBody 3 [] (loopBody 3 [] ⟨true, false, true, 3, 0⟩).1).2 = some 0 :=
  end_of_stream_loops 3 ⟨true, false, true, 3, 0⟩ rfl rfl (by decide) (by decide)

/-- `handleEvent` never sets `running` back to true. -/
lemma handleEvent_running_false (st : PlayerState) (e : Event)
    (h : st.running = false) : (handleEvent st e).running = false := by
  cases e <;> simp [handleEvent, h]

/-- Once `running` is cleared, no batch of events restores it. -/
lemma foldl_handleEvent_running_false (evs : List Event) (st : PlayerState)
    (h : st.running = false) : (evs.foldl handleEvent st).running = false := by
  induction evs generalizing st with
  | nil => exact h
  | cons e es ih => exact ih _ (handleEvent_running_false st e h)

/-- A batch containing a quit key (escape or q) leaves `running` false,
from any state. -/
lemma quit_batch_stops (evs : List Event) (st : PlayerState)
    (h : Event.keyEscape ∈ evs ∨ Event.keyQ ∈ evs) :
    (evs.foldl handleEvent st).running = false := by
  induction evs generalizing st with
  | nil => rcases h with h | h <;> simp at h
  | cons e es ih =>
    rcases h with h | h
    · rcases List.mem_cons.mp h with rfl | h'
      · exact foldl_handleEvent_running_false es _ rfl
      · exact ih _ (Or.inl h')
    · rcases List.mem_cons.mp h with rfl | h'
      · exact foldl_handleEvent_running_false es _ rfl
      · exact ih _ (Or.inr h')

/-- The read/render part of an iteration does not touch `running`. -/
lemma loopBody_running (fc : ℕ) (evs : List Event) (st : PlayerState) :
    (loopBody fc evs st).1.running = (evs.foldl handleEvent st).running := by
  unfold loopBody
  by_cases h : (evs.foldl handleEvent st).paused
  · simp [h]
  · by_cases h2 : (evs.foldl handleEvent st).pos < fc <;> simp [h, h2]

/-- An exited loop stays exited. -/
lemma playLoop_not_running (fc : ℕ) (l : List (List Event)) (st : PlayerState)
    (h : st.running = false) : playLoop fc l st = st := by
  cases l <;> simp [playLoop, h]

/-- `handleEvent` never runs cleanup. -/
lemma handleEvent_cleanups (st : PlayerState) (e : Event) :
    (handleEvent st e).cleanups = st.cleanups := by
  cases e <;> rfl

/-- Event polling never runs cleanup. -/
lemma foldl_handleEvent_cleanups (evs : List Event) (st : PlayerState) :
    (evs.foldl handleEvent st).cleanups = st.cleanups := by
  induction evs generalizing st with
  | nil => rfl
  | cons e es ih => rw [List.foldl_cons, ih, handleEvent_cleanups]

/-- A loop iteration never runs cleanup. -/
lemma loopBody_cleanups (fc : ℕ) (evs : List Event) (st : PlayerState) :
    (loopBody fc evs st).1.cleanups = st.cleanups := by
  unfold loopBody
  by_cases h : (evs.foldl handleEvent st).paused
  · simp [h, foldl_handleEvent_cleanups]
  · by_cases h2 : (evs.foldl handleEvent st).pos < fc <;>
      simp [h, h2, foldl_handleEvent_cleanups]

/-- The while-loop never runs cleanup. -/
lemma playLoop_cleanups (fc : ℕ) (l : List (List Event)) (st : PlayerState) :
    (playLoop fc l st).cleanups = st.cleanups := by
  induction l generalizing st with
  | nil => rfl
  | cons evs rest ih =>
    unfold playLoop
    by_cases h : st.running
    · simp only [h, if_true]
      rw [ih, loopBody_cleanups]
    · simp [h]

/-- A schedule containing a quit key somewhere drives the loop into the
exited state. -/
lemma playLoop_quit (fc : ℕ) (evss : List (List Event)) (st : PlayerState)
    (h : ∃ evs ∈ evss, Event.keyEscape ∈ evs ∨ Event.keyQ ∈ evs) :
    (playLoop fc evss st).running = false := by
  induction evss generalizing st with
  | nil => obtain ⟨evs, hmem, _⟩ := h; simp at hmem
  | cons evs rest ih =>
    obtain ⟨evs', hmem, hq⟩ := h
    unfold playLoop
    by_cases hr : st.running
    · simp only [hr, if_true]
      rcases List.mem_cons.mp hmem with rfl | hmem'
      · have hf : (loopBody fc evs' st).1.running = false := by
          rw [loopBody_running]; exact quit_batch_stops _ _ hq
        rw [playLoop_not_running _ _ _ hf]
        exact hf
      · exact ih _ ⟨evs', hmem', hq⟩
    · rw [if_neg hr]
      exact (Bool.not_eq_true st.running).mp hr

/-- C6: if some cycle's events contain the quit key (escape or q) — in any
state, Playing or Paused — the session ends in the terminal Stopped state
and the resource release of `cleanup` (video source release and rendering
teardown) runs exactly once: never zero times and never twice. -/
theorem quit_stops_and_releases_once (fc : ℕ) (evss : List (List Event))
    (st0 : PlayerState)
    (h : ∃ evs ∈ evss, Event.keyEscape ∈ evs ∨ Event.keyQ ∈ evs) :
    (play fc evss st0).running = false ∧
      (play fc evss st0).cleanups = st0.cleanups + 1 := by
  have hstop : (playLoop fc evss { st0 with running := true }).running = false :=
    playLoop_quit fc evss _ h
  have hcl : (playLoop fc evss { st0 with running := true }).cleanups =
      st0.cleanups := playLoop_cleanups fc evss _
  unfold play
  rw [if_neg (by simp [hstop])]
  exact ⟨by simp [hstop], by simp [hcl]⟩

/-- Witness for C6: pressing q on the second cycle of a paused 2-frame
session stops it with exactly one cleanup. -/
theorem quit_stops_and_releases_once_witness :
    (play 2 [[Event.keySpace], [Event.keyQ], [Event.keyOther]]
        ⟨false, false, true, 0, 0⟩).running = false ∧
      (play 2 [[Event.keySpace], [Event.keyQ], [Event.keyOther]]
          ⟨false, false, true, 0, 0⟩).cleanups =
        (⟨false, false, true, 0, 0⟩ : PlayerState).cleanups + 1 :=
  quit_stops_and_releases_once 2 _ _ ⟨[Event.keyQ], by decide, Or.inr (by decide)⟩

/-- The only error `ASCIIVideoPlayer.__init__` can raise past the video
open check: a Python `ZeroDivisionError` from one of its divisions.  The
code contains no `InvalidConfiguration` (or any other) validation. -/
inductive PyError
  | zeroDivisionError
deriving DecidableEq

/-- Geometry computed at session construction (lines 33-86). -/
structure Geometry where
  ascii_width : ℤ
  ascii_height : ℤ
  ascii_screen_width : ℤ
  ascii_screen_height : ℤ
  preview_width : ℤ
  preview_height : ℤ
  screen_width : ℤ
  screen_height : ℤ
deriving DecidableEq

/-- The LayoutCalculator part of `ASCIIVideoPlayer.__init__`
(lines 21-86), run after the video source opened and reported resolution
`(W, H)`: grid height derivation (lines 52-56: `W / H` then
`gw / video_aspect * 0.5`, truncated), glyph cell measurement `(cw, ch)`
from the rendering provider (lines 72-74), ASCII area (lines 75-76),
preview box with fixed width 240 (lines 79-80: `240 * H / W`, truncated),
and window size = ASCII area + 20 px margin (lines 84-86).  Python float
division by a zero denominator raises `ZeroDivisionError`; there is no
other validation — in particular none of `gw`, `W`, `H` is checked for
being positive. -/
def ascii_player_init (W H gw : ℤ) (gh : Option ℤ) (cw ch : ℤ) :
    Except PyError Geometry :=
  let heightRes : Except PyError ℤ :=
    match gh with
    | none =>
      if H = 0 then Except.error PyError.zeroDivisionError
      else
        let video_aspect : ℚ := (W : ℚ) / (H : ℚ)
        if video_aspect = 0 then Except.error PyError.zeroDivisionError
        else Except.ok (pyInt ((gw : ℚ) / video_aspect * (1 / 2)))
    | some h => Except.ok h
  match heightRes with
  | Except.error e => Except.error e
  | Except.ok ascii_height =>
    let ascii_screen_width := gw * cw
    let ascii_screen_height := ascii_height * ch
    let preview_width : ℤ := 240
    if W = 0 then Except.error PyError.zeroDivisionError
    else
      let preview_height := pyInt (((preview_width * H : ℤ) : ℚ) / (W : ℚ))
      Except.ok ⟨gw, ascii_height, ascii_screen_width, ascii_screen_height,
        preview_width, preview_height,
        ascii_screen_width + 20, ascii_screen_height + 20⟩

/-- C1 counterexample: session construction with grid width `gw = 0`
(and a perfectly ordinary 640×480 source, auto height, 6×10 glyph cells)
succeeds — no `InvalidConfiguration` (nor any other) error is raised, so
construction does NOT fail whenever `gw ≤ 0`. -/
theorem init_accepts_nonpositive_grid_width :
    ascii_player_init 640 480 0 none 6 10 =
      Except.ok ⟨0, 0, 0, 0, 240, 180, 20, 20⟩ := by
  unfold ascii_player_init pyInt
  norm_num

/-- C1 (amended): construction performs no configuration validation at
all; past the video-open check it fails — and then with a
`ZeroDivisionError`, as no `InvalidConfiguration` exists — exactly when
`W = 0` (the preview-height and aspect divisions) or when `H = 0` while
the grid height is auto-derived (the aspect division).  A non-positive
`gw`, and negative `W` or `H`, are accepted. -/
theorem init_error_characterization (W H gw : ℤ) (gh : Option ℤ) (cw ch : ℤ) :
    (∃ e, ascii_player_init W H gw gh cw ch = Except.error e) ↔
      W = 0 ∨ (gh = none ∧ H = 0) := by
  unfold ascii_player_init
  cases gh with
  | some h =>
    by_cases hW : W = 0
    · simp only [hW, if_pos rfl] at *
      simp
      exact ⟨PyError.zeroDivisionError, by simp⟩
    · simp [hW]
  | none =>
    by_cases hH : H = 0
    · simp [hH]
      exact ⟨PyError.zeroDivisionError, by simp⟩
    · by_cases hW : W = 0
      · have hasp : (W : ℚ) / (H : ℚ) = 0 := by rw [hW]; simp
        simp [hH, hW, hasp]
        exact ⟨PyError.zeroDivisionError, by simp⟩
      · have hasp : (W : ℚ) / (H : ℚ) ≠ 0 :=
          div_ne_zero (Int.cast_ne_zero.mpr hW) (Int.cast_ne_zero.mpr hH)
        simp [hH, hW, hasp]
